import Mathlib

/-!
# basic_signa_handler.c : a SIGINT handler and an endless status loop

A shallow embedding of `src/basic_signa_handler.c`.

* The process is a record `Proc`: its run status, the table of signal
  dispositions, the program point of `main`, and the effects (`printf` writes and
  `sleep` calls) it has performed so far, oldest first.
* The library calls of the program (`printf`, `sleep`, `signal`) are functions on
  `Proc`; `ctrlC_signal_handler` and the statements of `main` are written with them,
  statement for statement.
* The environment is a list of events: `Event.step` lets `main` execute its next
  statement (or finish the one it is in), `Event.deliver sig` is the kernel
  delivering signal `sig`, and `Event.enter pt` takes `main` into the `printf` call
  of line 21 as far as the point `pt`, so that a delivery can find it inside the
  call.  A caught signal runs its handler on the interrupted thread, to completion,
  before `main` goes on (the handler is an ordinary call frame on top of `main`,
  and `signal()` as provided by glibc keeps the handler installed and holds
  further instances of the signal back while the handler runs).
* `printf` is not atomic for signals: the handler prints on the same line-buffered
  stream as `main`.  When it runs inside the `printf` of `main`, its text lands
  behind the characters `main` has already put in the buffer, and a buffer that is
  written but not yet reset is written once more.
* Standard output is the concatenation of the texts written; `splitLines` cuts
  it into its newline-terminated lines.
-/

namespace SigDemo

/-! ## Platform: signal numbers, dispositions, default actions -/

/-- Modelled from the spec: the `<signal.h>` macro `SIGINT` is not under `src/`; the
interrupt request is signal number 2 ("for SIGINT, N = 2"). -/
def SIGINT : Int := 2

/-- Signal number of `SIGKILL` (Linux), which can be neither caught nor ignored. -/
def SIGKILL : Int := 9

/-- Signal number of `SIGSTOP` (Linux), which can be neither caught nor ignored. -/
def SIGSTOP : Int := 19

/-- The signal numbers the kernel knows: 1 to 64. -/
def validSignal (sig : Int) : Bool := decide (1 ≤ sig) && decide (sig ≤ 64)

/-- What the kernel does with a signal whose disposition is `SIG_DFL`. -/
inductive DefaultAction where
  | term
  | core
  | ign
  | stop
  | cont
  deriving DecidableEq

/-- Default actions of the Linux signals, by number (signal(7)): core dump for
QUIT, ILL, TRAP, ABRT, BUS, FPE, SEGV, XCPU, XFSZ, SYS; ignore for CHLD, URG, WINCH;
stop for STOP, TSTP, TTIN, TTOU; continue for CONT; terminate for all others
(HUP, INT, KILL, USR1, USR2, PIPE, ALRM, TERM, ... and the real-time signals). -/
def defaultAction (sig : Int) : DefaultAction :=
  if sig ∈ [3, 4, 5, 6, 7, 8, 11, 24, 25, 31] then DefaultAction.core
  else if sig ∈ [17, 23, 28] then DefaultAction.ign
  else if sig ∈ [19, 20, 21, 22] then DefaultAction.stop
  else if sig = 18 then DefaultAction.cont
  else DefaultAction.term

/-- The functions of the program that have the type of a signal handler,
`void (*)(int)`. There is one. -/
inductive HandlerFn where
  | ctrlC_signal_handler
  deriving DecidableEq

/-- Disposition of one signal: the default action, ignored, or caught by a handler. -/
inductive Disposition where
  | SIG_DFL
  | SIG_IGN
  | handler (f : HandlerFn)
  deriving DecidableEq

/-! ## Process state -/

/-- Whether the process runs, is stopped by job control, or has been terminated by
a signal (there is no other way out of this program). -/
inductive Status where
  | running
  | stopped
  | terminated (sig : Int)
  deriving DecidableEq

/-- An observable effect of the process: characters that `printf` puts on standard
output (the whole text of a call, or the part of it before or after an interruption),
or a call of `sleep`, entered in the trace when the call returns. -/
inductive Effect where
  | write (text : String)
  | sleep (seconds : Nat)
  deriving DecidableEq

/-- Points inside the call `printf("Program running\n")` of line 21 at which a signal
can find `main`: `copied k`, the first `k` characters of the text are in the buffer of
the stream; `written`, the buffer has gone to the terminal and the stream is not yet
reset, so that the buffer still holds the text. -/
inductive PrintfPoint where
  | copied (k : Nat)
  | written
  deriving DecidableEq

/-- Program points of `main`: before line 17 (`signal(...)`), before line 21
(`printf`, top of the loop body), at line 22 (`sleep(1)` not yet returned; a signal
that arrives while the process sleeps finds it here, and the call returns after the
handler has run), and inside the `printf` call of line 21. -/
inductive MainPc where
  | line17
  | line21
  | line22
  | inPrintf (pt : PrintfPoint)
  deriving DecidableEq

/-- The process: its run status, the disposition of every signal, the program point of
`main`, the effects performed so far (oldest first), and the two parameters of `main`,
which live in its frame. -/
structure Proc where
  status : Status
  disp : Int → Disposition
  pc : MainPc
  trace : List Effect
  argc : Int
  argv : List String

/-! ## Library calls -/

/-- The call `printf(text)` with the format already expanded: the text goes to standard output. -/
def printf (text : String) (p : Proc) : Proc :=
  { p with trace := p.trace ++ [Effect.write text] }

/-- The conversion `%d` of `printf` for an `int`: decimal digits, with a minus sign
for a negative number. -/
def printf_d (n : Int) : String :=
  match n with
  | Int.ofNat m => Nat.repr m
  | Int.negSucc m => "-" ++ Nat.repr (m + 1)

/-- The part of the call `printf(text)` up to the point where the first `k` characters
of the text are in the stream. -/
def printf_upto (k : Nat) (text : String) (p : Proc) : Proc :=
  printf (String.mk (text.data.take k)) p

/-- The rest of the call `printf(text)` from that point on: the other characters. -/
def printf_from (k : Nat) (text : String) (p : Proc) : Proc :=
  printf (String.mk (text.data.drop k)) p

/-- The call `sleep(seconds)`. -/
def sleep (seconds : Nat) (p : Proc) : Proc :=
  { p with trace := p.trace ++ [Effect.sleep seconds] }

/-- The call `signal(signum, d)`: sets the disposition of `signum`, and of no other
signal. It fails (returns `SIG_ERR`, table unchanged) for an invalid number and for
`SIGKILL` and `SIGSTOP`. The result is not used by the program. -/
def signal (signum : Int) (d : Disposition) (p : Proc) : Proc :=
  if validSignal signum = true ∧ signum ≠ SIGKILL ∧ signum ≠ SIGSTOP then
    { p with disp := fun s => if s = signum then d else p.disp s }
  else p

/-! ## The program -/

/-- Lines 6-12: `static void ctrlC_signal_handler(int sig)`, three `printf` calls. -/
def ctrlC_signal_handler (sig : Int) (p : Proc) : Proc :=
  let p := printf "Ctrl-C pressed\n" p
  let p := printf "Program did'nt quit execution\n" p
  let p := printf ("as sig:" ++ printf_d sig ++ " got re defined \n") p
  p

/-- Calling a handler function with the signal number as its argument. -/
def HandlerFn.call : HandlerFn → Int → Proc → Proc
  | HandlerFn.ctrlC_signal_handler => SigDemo.ctrlC_signal_handler

/-- One statement of `main` (lines 15-24) at the current program point: line 17
installs the handler and enters the loop; in the loop, line 21 prints and line 22
sleeps, and control goes back to line 21 (`while(1)` has no exit). Inside the `printf`
of line 21 the step finishes the call: the characters not yet in the stream follow, or,
with the buffer written, the stream is reset. -/
def main_step (p : Proc) : Proc :=
  match p.pc with
  | MainPc.line17 => { signal SIGINT (Disposition.handler HandlerFn.ctrlC_signal_handler) p with
      pc := MainPc.line21 }
  | MainPc.line21 => { printf "Program running\n" p with pc := MainPc.line22 }
  | MainPc.line22 => { sleep 1 p with pc := MainPc.line21 }
  | MainPc.inPrintf (PrintfPoint.copied k) =>
      { printf_from k "Program running\n" p with pc := MainPc.line22 }
  | MainPc.inPrintf PrintfPoint.written => { p with pc := MainPc.line22 }

/-- The `printf` call of line 21 as far as the point `pt`. -/
def main_enter (pt : PrintfPoint) (p : Proc) : Proc :=
  match pt with
  | PrintfPoint.copied k =>
      { printf_upto k "Program running\n" p with pc := MainPc.inPrintf (PrintfPoint.copied k) }
  | PrintfPoint.written =>
      { printf "Program running\n" p with pc := MainPc.inPrintf PrintfPoint.written }

/-- What the stream does when a handler starts to print while `main` is inside its own
`printf` with the buffer written and not yet reset: the first output call of the handler
writes the buffer, which still holds the text of `main`, once more and resets the stream;
nothing is left for `main` to do in its call, it is at line 22. At every other program
point the stream holds nothing stale. -/
def staleFlush (p : Proc) : Proc :=
  match p.pc with
  | MainPc.inPrintf PrintfPoint.written =>
      { printf "Program running\n" p with pc := MainPc.line22 }
  | _ => p

/-- The process at entry to `main(argc, argv)`: running, every signal at its default
disposition, nothing written yet. -/
def main_entry (argc : Int) (argv : List String) : Proc :=
  { status := Status.running
    disp := fun _ => Disposition.SIG_DFL
    pc := MainPc.line17
    trace := []
    argc := argc
    argv := argv }

/-! ## Events -/

/-- What can happen to the process: it executes the next statement of `main` (or
finishes the one it is inside), the kernel delivers a signal to it, or `main` goes
into the `printf` call of line 21 as far as a point inside it. -/
inductive Event where
  | step
  | deliver (sig : Int)
  | enter (pt : PrintfPoint)
  deriving DecidableEq

/-- Events that leave `main` between two statements: steps and deliveries. A schedule
of such events delivers every signal before the `printf` of line 21 or during the
`sleep` of line 22, never inside the `printf`. -/
def Event.betweenStatements : Event → Bool
  | Event.step => true
  | Event.deliver _ => true
  | Event.enter _ => false

/-- Delivery of signal `sig`: the kernel acts on the signal. A terminated process is
gone. On a stopped process the kernel acts only on `SIGKILL` and on a signal whose
default action is to continue; any other signal stays pending in the kernel, and its
delivery is an event after the continuation (so here the state is as it was). For a
running process the disposition decides: ignored, the default action, or a call of the
handler with `sig` as argument, which returns to the interrupted program point. -/
def deliver (sig : Int) (p : Proc) : Proc :=
  if validSignal sig = false then p else
  match p.status with
  | Status.terminated _ => p
  | Status.stopped =>
      if sig = SIGKILL then { p with status := Status.terminated sig }
      else if defaultAction sig = DefaultAction.cont then { p with status := Status.running }
      else p
  | Status.running =>
      match p.disp sig with
      | Disposition.SIG_IGN => p
      | Disposition.handler f => f.call sig (staleFlush p)
      | Disposition.SIG_DFL =>
          match defaultAction sig with
          | DefaultAction.term => { p with status := Status.terminated sig }
          | DefaultAction.core => { p with status := Status.terminated sig }
          | DefaultAction.stop => { p with status := Status.stopped }
          | DefaultAction.ign => p
          | DefaultAction.cont => p

/-- One event. Only a running process executes statements, and only at line 21 is
there a `printf` to go into. -/
def exec (p : Proc) (e : Event) : Proc :=
  match e with
  | Event.step => if p.status = Status.running then main_step p else p
  | Event.deliver sig => deliver sig p
  | Event.enter pt =>
      if p.status = Status.running ∧ p.pc = MainPc.line21 then main_enter pt p else p

/-- The process after a sequence of events, from state `p`. -/
def runFrom (p : Proc) (es : List Event) : Proc :=
  es.foldl exec p

/-- The process running `main(argc, argv)` after the events `es`. -/
def main (argc : Int) (argv : List String) (es : List Event) : Proc :=
  runFrom (main_entry argc argv) es

/-! ## Observations -/

/-- The bytes on standard output: the texts put on the stream, in order (on a terminal
they are on the screen up to the last newline). -/
def stdoutOf : List Effect → String
  | [] => ""
  | Effect.write text :: rest => text ++ stdoutOf rest
  | Effect.sleep _ :: rest => stdoutOf rest

/-- Standard output of the process so far. -/
def Proc.stdout (p : Proc) : String :=
  stdoutOf p.trace

/-- Scanner behind `splitLines`: `cur` is the line being read. -/
def splitAux : List Char → List Char → List String × String
  | cur, [] => ([], String.mk cur)
  | cur, c :: cs =>
      if c = '\n' then ((String.mk cur) :: (splitAux [] cs).1, (splitAux [] cs).2)
      else splitAux (cur ++ [c]) cs

/-- The newline-terminated lines of a text (without their newline), and what follows
the last newline. -/
def splitLines (s : String) : List String × String :=
  splitAux [] s.data

/-- The lines on standard output. -/
def Proc.lines (p : Proc) : List String :=
  (splitLines p.stdout).1

/-- The three lines of the interrupt message for signal number `N`, as the three
format strings of `ctrlC_signal_handler` give them (the third format has a blank before
its newline). -/
def interruptMessage (N : Int) : List String :=
  ["Ctrl-C pressed", "Program did'nt quit execution", "as sig:" ++ printf_d N ++ " got re defined "]

/-- The status line of the loop. -/
def statusLine : String := "Program running"

/-- A process in the loop of `main` with the handler installed, between two statements:
running, the disposition of SIGINT is `ctrlC_signal_handler`, and `main` is at line 21 or
at line 22. -/
def InLoop (p : Proc) : Prop :=
  p.status = Status.running
    ∧ p.disp SIGINT = Disposition.handler HandlerFn.ctrlC_signal_handler
    ∧ (p.pc = MainPc.line21 ∨ p.pc = MainPc.line22)

/-- The lines a schedule of steps and SIGINT deliveries asks for, read off the events
alone: the status line for each statement executed at line 21, nothing for line 22, the
three lines of the message for each delivery, in the order of the events. `pc` is the
program point of the loop. -/
def loopLines : MainPc → List Event → List String
  | _, [] => []
  | MainPc.line21, Event.step :: es => statusLine :: loopLines MainPc.line22 es
  | MainPc.line22, Event.step :: es => loopLines MainPc.line21 es
  | MainPc.line17, Event.step :: es => loopLines MainPc.line21 es
  | MainPc.inPrintf _, Event.step :: es => loopLines MainPc.line22 es
  | pc, Event.deliver _ :: es => interruptMessage SIGINT ++ loopLines pc es
  | pc, Event.enter _ :: es => loopLines pc es

/-- Lines in which every interrupt message stands whole: a sequence of blocks, each one
either the status line or the lines `msg` of one message, adjacent and in order. -/
inductive WholeMessages (msg : List String) : List String → Prop where
  | nil : WholeMessages msg []
  | status (ls : List String) : WholeMessages msg ls → WholeMessages msg (statusLine :: ls)
  | message (ls : List String) : WholeMessages msg ls → WholeMessages msg (msg ++ ls)

/-- What every state reached between statements satisfies: the output ends at a line
boundary, its messages are whole, no signal but SIGINT has a handler, and `main` is not
inside its `printf`. -/
def OutputInv (p : Proc) : Prop :=
  (splitLines p.stdout).2 = "" ∧ WholeMessages (interruptMessage SIGINT) p.lines
    ∧ (∀ (sig : Int) (f : HandlerFn), p.disp sig = Disposition.handler f → sig = SIGINT)
    ∧ ∀ pt : PrintfPoint, p.pc ≠ MainPc.inPrintf pt

/-- Two processes that differ at most in the stored arguments of `main`. -/
def SameButArgs (p q : Proc) : Prop :=
  p.status = q.status ∧ p.disp = q.disp ∧ p.pc = q.pc ∧ p.trace = q.trace

/-! ## Lines of a text -/

theorem ite_ne_of {α : Type} (c : Prop) [Decidable c] (a b x : α) (ha : a ≠ x) (hb : b ≠ x) :
    (if c then a else b) ≠ x := by
  split <;> assumption

theorem digitChar_ne_newline (k : Nat) : Nat.digitChar k ≠ '\n' := by
  unfold Nat.digitChar
  repeat' apply ite_ne_of
  all_goals decide

theorem toDigitsCore_no_newline (b : Nat) :
    ∀ (fuel n : Nat) (acc : List Char), '\n' ∉ acc → '\n' ∉ Nat.toDigitsCore b fuel n acc := by
  intro fuel
  induction fuel with
  | zero => intro n acc h; simpa [Nat.toDigitsCore] using h
  | succ f ih =>
    intro n acc h
    have hd : '\n' ∉ Nat.digitChar (n % b) :: acc := by
      intro hm
      rcases List.mem_cons.mp hm with h1 | h1
      · exact digitChar_ne_newline _ h1.symm
      · exact h h1
    simp only [Nat.toDigitsCore]
    split_ifs
    · exact hd
    · exact ih _ _ hd

theorem repr_no_newline (m : Nat) : '\n' ∉ (Nat.repr m).data := by
  have h : (Nat.repr m).data = Nat.toDigitsCore 10 (m + 1) m [] := rfl
  rw [h]
  exact toDigitsCore_no_newline 10 _ _ _ (by simp)

theorem printf_d_no_newline (n : Int) : '\n' ∉ (printf_d n).data := by
  cases n with
  | ofNat m => exact repr_no_newline m
  | negSucc m =>
    have h : (printf_d (Int.negSucc m)).data = '-' :: (Nat.repr (m + 1)).data := rfl
    rw [h]
    intro hm
    rcases List.mem_cons.mp hm with h1 | h1
    · exact absurd h1 (by decide)
    · exact repr_no_newline _ h1

theorem splitAux_append (a b : List Char) : ∀ cur : List Char,
    splitAux cur (a ++ b)
      = ((splitAux cur a).1 ++ (splitAux (splitAux cur a).2.data b).1,
         (splitAux (splitAux cur a).2.data b).2) := by
  induction a with
  | nil => intro cur; simp [splitAux]
  | cons c cs ih =>
    intro cur
    by_cases hc : c = '\n'
    · simp [splitAux, hc, ih]
    · simp [splitAux, hc, ih]

theorem splitAux_line (l : List Char) (h : '\n' ∉ l) : ∀ cur : List Char,
    splitAux cur (l ++ ['\n']) = ([String.mk (cur ++ l)], "") := by
  induction l with
  | nil => intro cur; simp [splitAux]
  | cons c cs ih =>
    intro cur
    have hc : c ≠ '\n' := fun e => h (by simp [e])
    have hcs : '\n' ∉ cs := fun e => h (by simp [e])
    simp [splitAux, hc, ih hcs]

/-- Appending one more newline-terminated line to a text that ends at a line boundary. -/
theorem splitLines_append_line (s l : String) (hs : (splitLines s).2 = "")
    (hl : '\n' ∉ l.data) :
    splitLines (s ++ (l ++ "\n")) = ((splitLines s).1 ++ [l], "") := by
  unfold splitLines at *
  have e : (s ++ (l ++ "\n")).data = s.data ++ (l.data ++ ['\n']) := by
    simp [String.data_append]
  rw [e, splitAux_append, hs]
  have e2 : ("" : String).data = [] := rfl
  rw [e2, splitAux_line l.data hl []]
  simp

/-! ## Standard output of the library calls and of the handler -/

theorem stdoutOf_append (a b : List Effect) : stdoutOf (a ++ b) = stdoutOf a ++ stdoutOf b := by
  induction a with
  | nil => simp [stdoutOf]
  | cons e rest ih =>
    cases e with
    | write t => simp [stdoutOf, ih, String.append_assoc]
    | sleep n => simp [stdoutOf, ih]

theorem stdout_printf (t : String) (p : Proc) : (printf t p).stdout = p.stdout ++ t := by
  simp [Proc.stdout, printf, stdoutOf_append, stdoutOf]

theorem stdout_sleep (n : Nat) (p : Proc) : (sleep n p).stdout = p.stdout := by
  simp [Proc.stdout, sleep, stdoutOf_append, stdoutOf]

/-- A `printf` of one whole line, on an output that ends at a line boundary. -/
theorem split_printf_line (l : String) (p : Proc) (hl : '\n' ∉ l.data)
    (hp : (splitLines p.stdout).2 = "") :
    splitLines (printf (l ++ "\n") p).stdout = (p.lines ++ [l], "") := by
  rw [stdout_printf]
  exact splitLines_append_line _ _ hp hl

theorem sigLine_no_newline (N : Int) :
    '\n' ∉ ("as sig:" ++ printf_d N ++ " got re defined ").data := by
  have h := printf_d_no_newline N
  simp only [String.data_append, List.mem_append, not_or]
  exact ⟨⟨by decide, h⟩, by decide⟩

theorem handler_eq (N : Int) (p : Proc) :
    ctrlC_signal_handler N p
      = printf (("as sig:" ++ printf_d N ++ " got re defined ") ++ "\n")
          (printf ("Program did'nt quit execution" ++ "\n")
            (printf ("Ctrl-C pressed" ++ "\n") p)) := by
  have e : "as sig:" ++ printf_d N ++ " got re defined \n"
      = ("as sig:" ++ printf_d N ++ " got re defined ") ++ "\n" := by
    rw [String.append_assoc ("as sig:" ++ printf_d N)]
    rfl
  unfold ctrlC_signal_handler
  rw [e]
  rfl

/-- The handler on an output that ends at a line boundary: its three lines are added. -/
theorem split_handler (N : Int) (p : Proc) (hp : (splitLines p.stdout).2 = "") :
    splitLines (ctrlC_signal_handler N p).stdout = (p.lines ++ interruptMessage N, "") := by
  rw [handler_eq]
  have h1 := split_printf_line "Ctrl-C pressed" p (by decide) hp
  have h2 := split_printf_line "Program did'nt quit execution" _ (by decide)
    (by rw [h1])
  have h3 := split_printf_line ("as sig:" ++ printf_d N ++ " got re defined ") _
    (sigLine_no_newline N) (by rw [h2])
  have l1 : (printf ("Ctrl-C pressed" ++ "\n") p).lines = p.lines ++ ["Ctrl-C pressed"] :=
    congrArg Prod.fst h1
  have l2 : (printf ("Program did'nt quit execution" ++ "\n")
      (printf ("Ctrl-C pressed" ++ "\n") p)).lines
        = (printf ("Ctrl-C pressed" ++ "\n") p).lines ++ ["Program did'nt quit execution"] :=
    congrArg Prod.fst h2
  rw [h3, l2, l1]
  simp [interruptMessage]

/-! ## Claims about the handler -/

theorem runFrom_cons (p : Proc) (e : Event) (es : List Event) :
    runFrom p (e :: es) = runFrom (exec p e) es := rfl

theorem runFrom_append (p : Proc) (es fs : List Event) :
    runFrom p (es ++ fs) = runFrom (runFrom p es) fs := by
  simp [runFrom]

theorem main_cons (argc : Int) (argv : List String) (es : List Event) :
    main argc argv (Event.step :: es) = runFrom (main argc argv [Event.step]) es := rfl

theorem inLoop_setup (argc : Int) (argv : List String) :
    InLoop (main argc argv [Event.step]) :=
  ⟨rfl, rfl, Or.inl rfl⟩

theorem staleFlush_of_boundary (p : Proc) (h : ∀ pt : PrintfPoint, p.pc ≠ MainPc.inPrintf pt) :
    staleFlush p = p := by
  unfold staleFlush
  split
  · rename_i hpc
    exact absurd hpc (h _)
  · rfl

theorem inLoop_boundary (p : Proc) (h : InLoop p) (pt : PrintfPoint) :
    p.pc ≠ MainPc.inPrintf pt := by
  intro hpc
  rcases h.2.2 with h1 | h1 <;> rw [h1] at hpc <;> exact MainPc.noConfusion hpc

theorem exec_deliver_inLoop (p : Proc) (h : InLoop p) :
    exec p (Event.deliver SIGINT) = ctrlC_signal_handler SIGINT p := by
  have hb := staleFlush_of_boundary p (inLoop_boundary p h)
  obtain ⟨h1, h2, _⟩ := h
  have hv : validSignal SIGINT = true := by decide
  simp [exec, deliver, h1, h2, hv, HandlerFn.call, hb]

theorem exec_step_inLoop (p : Proc) (h : InLoop p) :
    (p.pc = MainPc.line21 ∧
        exec p Event.step = { printf "Program running\n" p with pc := MainPc.line22 })
      ∨ (p.pc = MainPc.line22 ∧ exec p Event.step = { sleep 1 p with pc := MainPc.line21 }) := by
  obtain ⟨h1, _, h3⟩ := h
  rcases h3 with hpc | hpc
  · left; simp [exec, h1, main_step, hpc]
  · right; simp [exec, h1, main_step, hpc]

theorem inLoop_exec (p : Proc) (h : InLoop p) (e : Event)
    (he : e = Event.step ∨ e = Event.deliver SIGINT) : InLoop (exec p e) := by
  rcases he with rfl | rfl
  · rcases exec_step_inLoop p h with ⟨_, e1⟩ | ⟨_, e1⟩
    · rw [e1]; exact ⟨h.1, h.2.1, Or.inr rfl⟩
    · rw [e1]; exact ⟨h.1, h.2.1, Or.inl rfl⟩
  · rw [exec_deliver_inLoop p h]
    exact ⟨h.1, h.2.1, h.2.2⟩

/-- Lines of the loop: what the events `es` add to the output of a process in the loop
at program point `pc`. -/
theorem lines_runFrom (es : List Event) : ∀ p : Proc, InLoop p → (splitLines p.stdout).2 = "" →
    (∀ e ∈ es, e = Event.step ∨ e = Event.deliver SIGINT) →
    splitLines (runFrom p es).stdout = (p.lines ++ loopLines p.pc es, "") := by
  induction es with
  | nil =>
    intro p _ ht _
    simp only [runFrom, List.foldl_nil, loopLines, List.append_nil]
    exact Prod.ext rfl ht
  | cons e es ih =>
    intro p h ht hes
    have hrest : ∀ x ∈ es, x = Event.step ∨ x = Event.deliver SIGINT :=
      fun x hx => hes x (List.mem_cons_of_mem _ hx)
    have he := hes e (List.mem_cons_self _ _)
    have hin := inLoop_exec p h e he
    rw [runFrom_cons]
    rcases he with rfl | rfl
    · rcases exec_step_inLoop p h with ⟨hpc, e1⟩ | ⟨hpc, e1⟩
      · have hs : splitLines (exec p Event.step).stdout = (p.lines ++ [statusLine], "") := by
          rw [e1]
          exact split_printf_line statusLine p (by decide) ht
        rw [ih _ hin (by rw [hs]) hrest]
        have hl : (exec p Event.step).lines = p.lines ++ [statusLine] := congrArg Prod.fst hs
        have hp : (exec p Event.step).pc = MainPc.line22 := by rw [e1]
        rw [hl, hp, hpc]
        simp [loopLines]
      · have hs : (exec p Event.step).stdout = p.stdout := by
          rw [e1]
          exact stdout_sleep 1 p
        have hl : (exec p Event.step).lines = p.lines := by
          unfold Proc.lines
          rw [hs]
        have hp : (exec p Event.step).pc = MainPc.line21 := by rw [e1]
        rw [ih _ hin (by rw [hs]; exact ht) hrest, hl, hp, hpc]
        simp [loopLines]
    · have e1 := exec_deliver_inLoop p h
      have hs := split_handler SIGINT p ht
      rw [← e1] at hs
      have hl : (exec p (Event.deliver SIGINT)).lines = p.lines ++ interruptMessage SIGINT :=
        congrArg Prod.fst hs
      have hp : (exec p (Event.deliver SIGINT)).pc = p.pc := by rw [e1]; rfl
      rw [ih _ hin (by rw [hs]) hrest, hl, hp]
      simp [loopLines]

theorem lines_main (argc : Int) (argv : List String) (es : List Event)
    (hes : ∀ e ∈ es, e = Event.step ∨ e = Event.deliver SIGINT) :
    splitLines (main argc argv (Event.step :: es)).stdout = (loopLines MainPc.line21 es, "") := by
  rw [main_cons, lines_runFrom es _ (inLoop_setup argc argv) rfl hes]
  rfl

/-! ## Frame lemmas for single events -/

theorem staleFlush_frame (p : Proc) :
    (staleFlush p).disp = p.disp ∧ (staleFlush p).status = p.status
      ∧ ((staleFlush p).pc = p.pc ∨ (staleFlush p).pc = MainPc.line22) := by
  unfold staleFlush
  split
  · exact ⟨rfl, rfl, Or.inr rfl⟩
  · exact ⟨rfl, rfl, Or.inl rfl⟩

theorem deliver_frame (sig : Int) (p : Proc) :
    (deliver sig p).disp = p.disp
      ∧ ((deliver sig p).pc = p.pc ∨ (deliver sig p).pc = MainPc.line22) := by
  unfold deliver
  split
  · exact ⟨rfl, Or.inl rfl⟩
  · split
    · exact ⟨rfl, Or.inl rfl⟩
    · split_ifs <;> exact ⟨rfl, Or.inl rfl⟩
    · split
      · exact ⟨rfl, Or.inl rfl⟩
      · rename_i f _
        cases f
        exact ⟨(staleFlush_frame p).1, (staleFlush_frame p).2.2⟩
      · split <;> exact ⟨rfl, Or.inl rfl⟩

theorem exec_frame (p : Proc) (e : Event) (hpc : p.pc ≠ MainPc.line17) :
    (exec p e).disp = p.disp ∧ (exec p e).pc ≠ MainPc.line17 := by
  cases e with
  | deliver sig =>
    have h := deliver_frame sig p
    refine ⟨h.1, ?_⟩
    show (deliver sig p).pc ≠ MainPc.line17
    rcases h.2 with h2 | h2
    · rw [h2]; exact hpc
    · rw [h2]; exact fun h => MainPc.noConfusion h
  | step =>
    by_cases hr : p.status = Status.running
    · cases h : p.pc with
      | line17 => exact absurd h hpc
      | line21 => simp [exec, hr, main_step, h, printf]
      | line22 => simp [exec, hr, main_step, h, sleep]
      | inPrintf pt =>
        cases pt with
        | copied k => simp [exec, hr, main_step, h, printf_from, printf]
        | written => simp [exec, hr, main_step, h]
    · simp [exec, hr, hpc]
  | enter pt =>
    by_cases hr : p.status = Status.running ∧ p.pc = MainPc.line21
    · cases pt with
      | copied k => simp [exec, hr, main_enter, printf_upto, printf]
      | written => simp [exec, hr, main_enter, printf]
    · simp [exec, hr, hpc]

theorem runFrom_frame (es : List Event) : ∀ p : Proc, p.pc ≠ MainPc.line17 →
    (runFrom p es).disp = p.disp ∧ (runFrom p es).pc ≠ MainPc.line17 := by
  induction es with
  | nil => intro p h; exact ⟨rfl, h⟩
  | cons e es ih =>
    intro p h
    rw [runFrom_cons]
    have h1 := exec_frame p e h
    have h2 := ih _ h1.2
    exact ⟨h2.1.trans h1.1, h2.2⟩

theorem exec_terminated (p : Proc) (e : Event) (sig : Int) (h : p.status = Status.terminated sig) :
    exec p e = p := by
  cases e with
  | step => simp [exec, h]
  | deliver s =>
    simp only [exec, deliver, h]
    split <;> rfl
  | enter pt => simp [exec, h]

theorem runFrom_terminated (es : List Event) : ∀ (p : Proc) (sig : Int),
    p.status = Status.terminated sig → runFrom p es = p := by
  induction es with
  | nil => intro p _ _; rfl
  | cons e es ih =>
    intro p sig h
    rw [runFrom_cons, exec_terminated p e sig h]
    exact ih p sig h

/-- One iteration of the loop, undisturbed: line 21 then line 22. -/
theorem loop_iteration (p : Proc) (hs : p.status = Status.running) (hpc : p.pc = MainPc.line21) :
    runFrom p [Event.step, Event.step]
      = { p with trace := p.trace ++ [Effect.write "Program running\n", Effect.sleep 1] } := by
  cases p with
  | mk st d pc tr a v =>
    simp only at hs hpc
    subst hs hpc
    simp [runFrom, exec, main_step, printf, sleep]

/-- The loop without signals: the state after the setup and `n` iterations. -/
theorem loop_state (argc : Int) (argv : List String) (n : Nat) :
    main argc argv (List.replicate (1 + 2 * n) Event.step)
      = { main argc argv [Event.step] with
          trace := (List.replicate n
            [Effect.write "Program running\n", Effect.sleep 1]).flatten } := by
  induction n with
  | zero => rfl
  | succ k ih =>
    have e : List.replicate (1 + 2 * (k + 1)) Event.step
        = List.replicate (1 + 2 * k) Event.step ++ [Event.step, Event.step] := by
      rw [show 1 + 2 * (k + 1) = (1 + 2 * k) + 2 by ring, List.replicate_add]
      rfl
    have f : (List.replicate (k + 1) [Effect.write "Program running\n", Effect.sleep 1]).flatten
        = (List.replicate k [Effect.write "Program running\n", Effect.sleep 1]).flatten
          ++ [Effect.write "Program running\n", Effect.sleep 1] := by
      rw [show k + 1 = k + 1 from rfl, List.replicate_add]
      simp
    unfold main at ih ⊢
    rw [e, runFrom_append, ih, loop_iteration _ rfl rfl, f]

theorem loopLines_steps (n : Nat) :
    loopLines MainPc.line21 (List.replicate (2 * n) Event.step) = List.replicate n statusLine := by
  induction n with
  | zero => rfl
  | succ k ih =>
    rw [show 2 * (k + 1) = 2 * k + 1 + 1 by ring, List.replicate_succ, List.replicate_succ]
    simp [loopLines, ih, List.replicate_succ]

theorem setup_pc (argc : Int) (argv : List String) :
    (main argc argv [Event.step]).pc ≠ MainPc.line17 :=
  fun h => MainPc.noConfusion h

theorem disp_after_setup (argc : Int) (argv : List String) (es : List Event) :
    (main argc argv (Event.step :: es)).disp
      = fun s => if s = SIGINT then Disposition.handler HandlerFn.ctrlC_signal_handler
          else Disposition.SIG_DFL := by
  rw [main_cons, (runFrom_frame es _ (setup_pc argc argv)).1]
  rfl

theorem sameButArgs_deliver (sig : Int) (p q : Proc) (h : SameButArgs p q) :
    SameButArgs (deliver sig p) (deliver sig q) := by
  obtain ⟨st, d, pc, tr, a, v⟩ := p
  obtain ⟨st', d', pc', tr', a', v'⟩ := q
  obtain ⟨h1, h2, h3, h4⟩ := h
  simp only at h1 h2 h3 h4
  subst h1 h2 h3 h4
  unfold deliver
  split
  · exact ⟨rfl, rfl, rfl, rfl⟩
  · cases st with
    | terminated s => exact ⟨rfl, rfl, rfl, rfl⟩
    | stopped =>
      simp only
      split_ifs <;> exact ⟨rfl, rfl, rfl, rfl⟩
    | running =>
      simp only
      cases d sig with
      | SIG_IGN => exact ⟨rfl, rfl, rfl, rfl⟩
      | handler f =>
        cases f
        cases pc with
        | line17 => exact ⟨rfl, rfl, rfl, rfl⟩
        | line21 => exact ⟨rfl, rfl, rfl, rfl⟩
        | line22 => exact ⟨rfl, rfl, rfl, rfl⟩
        | inPrintf pt => cases pt <;> exact ⟨rfl, rfl, rfl, rfl⟩
      | SIG_DFL =>
        simp only
        cases defaultAction sig <;> exact ⟨rfl, rfl, rfl, rfl⟩

theorem sameButArgs_exec (p q : Proc) (e : Event) (h : SameButArgs p q) :
    SameButArgs (exec p e) (exec q e) := by
  cases e with
  | deliver sig => exact sameButArgs_deliver sig p q h
  | step =>
    obtain ⟨st, d, pc, tr, a, v⟩ := p
    obtain ⟨st', d', pc', tr', a', v'⟩ := q
    obtain ⟨h1, h2, h3, h4⟩ := h
    simp only at h1 h2 h3 h4
    subst h1 h2 h3 h4
    simp only [exec]
    split_ifs
    · cases pc with
      | line17 =>
        simp only [main_step, signal]
        split_ifs <;> exact ⟨rfl, rfl, rfl, rfl⟩
      | line21 => exact ⟨rfl, rfl, rfl, rfl⟩
      | line22 => exact ⟨rfl, rfl, rfl, rfl⟩
      | inPrintf pt => cases pt <;> exact ⟨rfl, rfl, rfl, rfl⟩
    · exact ⟨rfl, rfl, rfl, rfl⟩
  | enter pt =>
    obtain ⟨st, d, pc, tr, a, v⟩ := p
    obtain ⟨st', d', pc', tr', a', v'⟩ := q
    obtain ⟨h1, h2, h3, h4⟩ := h
    simp only at h1 h2 h3 h4
    subst h1 h2 h3 h4
    simp only [exec]
    split_ifs
    · cases pt <;> exact ⟨rfl, rfl, rfl, rfl⟩
    · exact ⟨rfl, rfl, rfl, rfl⟩

theorem sameButArgs_runFrom (es : List Event) : ∀ p q : Proc, SameButArgs p q →
    SameButArgs (runFrom p es) (runFrom q es) := by
  induction es with
  | nil => intro p q h; exact h
  | cons e es ih =>
    intro p q h
    rw [runFrom_cons, runFrom_cons]
    exact ih _ _ (sameButArgs_exec p q e h)

/-! ## Claims about `main` -/

/-- C3: the first statement of `main` installs `ctrlC_signal_handler` for SIGINT while
nothing has been printed yet, and in every state reached from there by any events (loop
steps, deliveries of SIGINT or of any other signal, between statements or inside the
`printf` of line 21) the disposition of SIGINT is still
`ctrlC_signal_handler` (not the default, not ignored), and `main` is never back at line 17,
so `signal` is called once. -/
theorem handler_stays_installed (argc : Int) (argv : List String) (es : List Event) :
    (main argc argv [Event.step]).disp SIGINT
        = Disposition.handler HandlerFn.ctrlC_signal_handler
      ∧ (main argc argv [Event.step]).trace = []
      ∧ (main argc argv (Event.step :: es)).disp SIGINT
        = Disposition.handler HandlerFn.ctrlC_signal_handler
      ∧ (main argc argv (Event.step :: es)).disp SIGINT ≠ Disposition.SIG_DFL
      ∧ (main argc argv (Event.step :: es)).disp SIGINT ≠ Disposition.SIG_IGN
      ∧ (main argc argv (Event.step :: es)).pc ≠ MainPc.line17 := by
  have hd : (main argc argv (Event.step :: es)).disp SIGINT
      = Disposition.handler HandlerFn.ctrlC_signal_handler := by
    rw [disp_after_setup]
    rfl
  refine ⟨rfl, rfl, hd, ?_, ?_, ?_⟩
  · rw [hd]; exact fun h => Disposition.noConfusion h
  · rw [hd]; exact fun h => Disposition.noConfusion h
  · rw [main_cons]
    exact (runFrom_frame es _ (setup_pc argc argv)).2

/-- C4: for every n, with no signal delivered, the setup followed by the first n
iterations of the loop performs exactly n times the pair "write `Program running` and a
newline, then `sleep(1)`", in that order and nothing else, and standard output is then
exactly n lines `Program running`. -/
theorem loop_prints_then_sleeps (argc : Int) (argv : List String) (n : Nat) :
    (main argc argv (List.replicate (1 + 2 * n) Event.step)).trace
        = (List.replicate n [Effect.write "Program running\n", Effect.sleep 1]).flatten
      ∧ splitLines (main argc argv (List.replicate (1 + 2 * n) Event.step)).stdout
        = (List.replicate n "Program running", "") := by
  refine ⟨by rw [loop_state], ?_⟩
  rw [show 1 + 2 * n = 2 * n + 1 by ring, List.replicate_succ,
    lines_main argc argv _ (by intro e he; exact Or.inl (List.eq_of_mem_replicate he)),
    loopLines_steps]
  rfl

/-- C7: the command-line arguments are not read: for any two argument vectors and the
same sequence of events (steps and signal deliveries, wherever they arrive), the two runs
of `main` agree on
standard output, on the effects performed, on the signal dispositions, on the run status
and on the program point; they differ in nothing but the stored arguments. -/
theorem arguments_are_ignored (argc argc' : Int) (argv argv' : List String) (es : List Event) :
    (main argc argv es).stdout = (main argc' argv' es).stdout
      ∧ (main argc argv es).trace = (main argc' argv' es).trace
      ∧ (main argc argv es).disp = (main argc' argv' es).disp
      ∧ (main argc argv es).status = (main argc' argv' es).status
      ∧ (main argc argv es).pc = (main argc' argv' es).pc := by
  have h := sameButArgs_runFrom es (main_entry argc argv) (main_entry argc' argv')
    ⟨rfl, rfl, rfl, rfl⟩
  exact ⟨congrArg stdoutOf h.2.2.2, h.2.2.2, h.2.1, h.1, h.2.2.1⟩

/-- C6: the setup of `main` changes the disposition of SIGINT only. The call
`signal(SIGINT, ...)` leaves the disposition of every other signal as it was, in any
process state, and for every signal other than SIGINT (valid number or not, whatever its
default action) the disposition in every state reached after the setup, by any events, is
the one at entry, the default. So when such a signal is a valid one whose default action
terminates (with or without a core dump) and it is delivered to the running process
after the setup, the process is terminated by it and the handler is not run: the effects
of the process are the ones it had before that delivery, whatever events follow. The same
holds when the signal is delivered at entry, before the setup. -/
theorem other_signals_keep_default (argc : Int) (argv : List String) (sig : Int)
    (hsig : sig ≠ SIGINT) (es es' : List Event) :
    (∀ (d : Disposition) (p : Proc), (signal SIGINT d p).disp sig = p.disp sig)
      ∧ (main argc argv (Event.step :: es)).disp sig = (main_entry argc argv).disp sig
      ∧ (main_entry argc argv).disp sig = Disposition.SIG_DFL
      ∧ (validSignal sig = true →
          (defaultAction sig = DefaultAction.term ∨ defaultAction sig = DefaultAction.core) →
          (main argc argv (Event.step :: es)).status = Status.running →
          (main argc argv (Event.step :: (es ++ Event.deliver sig :: es'))).status
              = Status.terminated sig
            ∧ (main argc argv (Event.step :: (es ++ Event.deliver sig :: es'))).trace
              = (main argc argv (Event.step :: es)).trace)
      ∧ (validSignal sig = true →
          (defaultAction sig = DefaultAction.term ∨ defaultAction sig = DefaultAction.core) →
          (main argc argv (Event.deliver sig :: es')).status = Status.terminated sig
            ∧ (main argc argv (Event.deliver sig :: es')).trace = []) := by
  have hdisp : (main argc argv (Event.step :: es)).disp sig = Disposition.SIG_DFL := by
    rw [disp_after_setup]
    simp [hsig]
  refine ⟨?_, hdisp, rfl, ?_, ?_⟩
  · intro d p
    unfold signal
    split_ifs
    · simp [hsig]
    · rfl
  · intro hv hd hrun
    have hdel : deliver sig (main argc argv (Event.step :: es))
        = { main argc argv (Event.step :: es) with status := Status.terminated sig } := by
      unfold deliver
      rcases hd with hd | hd <;> simp [hv, hrun, hdisp, hd]
    have hall : main argc argv (Event.step :: (es ++ Event.deliver sig :: es'))
        = { main argc argv (Event.step :: es) with status := Status.terminated sig } := by
      rw [main_cons, runFrom_append, runFrom_cons, ← main_cons]
      show runFrom (deliver sig (main argc argv (Event.step :: es))) es' = _
      rw [hdel]
      exact runFrom_terminated es' _ sig rfl
    rw [hall]
    exact ⟨rfl, rfl⟩
  · intro hv hd
    have hdel0 : deliver sig (main_entry argc argv)
        = { main_entry argc argv with status := Status.terminated sig } := by
      unfold deliver
      rcases hd with hd | hd <;> simp [hv, hd, main_entry]
    have hall0 : main argc argv (Event.deliver sig :: es')
        = { main_entry argc argv with status := Status.terminated sig } := by
      show runFrom (deliver sig (main_entry argc argv)) es' = _
      rw [hdel0]
      exact runFrom_terminated es' _ sig rfl
    rw [hall0]
    exact ⟨rfl, rfl⟩

theorem other_signals_keep_default_witness :
    (20 : Int) ≠ SIGINT
      ∧ (main 0 [] (Event.step :: [Event.step, Event.deliver SIGINT, Event.deliver 20])).disp 20
        = Disposition.SIG_DFL
      ∧ (15 : Int) ≠ SIGINT ∧ validSignal 15 = true
      ∧ (defaultAction 15 = DefaultAction.term ∨ defaultAction 15 = DefaultAction.core)
      ∧ (main 0 [] (Event.step :: [Event.step, Event.deliver SIGINT])).status = Status.running
      ∧ (main 0 [] (Event.step :: ([Event.step, Event.deliver SIGINT]
          ++ Event.deliver 15 :: [Event.step, Event.deliver SIGINT]))).status
        = Status.terminated 15
      ∧ (main 0 [] (Event.step :: ([Event.step, Event.deliver SIGINT]
          ++ Event.deliver 15 :: [Event.step, Event.deliver SIGINT]))).trace
        = (main 0 [] (Event.step :: [Event.step, Event.deliver SIGINT])).trace :=
  ⟨by decide,
    (other_signals_keep_default 0 [] 20 (by decide)
      [Event.step, Event.deliver SIGINT, Event.deliver 20] []).2.1.trans
      (other_signals_keep_default 0 [] 20 (by decide)
        [Event.step, Event.deliver SIGINT, Event.deliver 20] []).2.2.1,
    by decide, by decide, by decide, by decide,
    (other_signals_keep_default 0 [] 15 (by decide) [Event.step, Event.deliver SIGINT]
      [Event.step, Event.deliver SIGINT]).2.2.2.1 (by decide) (Or.inl (by decide)) (by decide)⟩

/-! ## Counting lines -/

theorem deliver_eq_of_mem {s : Int} {es : List Event}
    (hes : ∀ e ∈ Event.deliver s :: es, e = Event.step ∨ e = Event.deliver SIGINT) :
    s = SIGINT := by
  rcases hes _ (List.mem_cons_self _ _) with h | h
  · exact Event.noConfusion h
  · exact Event.deliver.inj h

theorem count_loopLines (x : String) (hx : statusLine ≠ x)
    (h1 : (interruptMessage SIGINT).count x = 1) : ∀ (es : List Event) (pc : MainPc),
    (∀ e ∈ es, e = Event.step ∨ e = Event.deliver SIGINT) →
    (loopLines pc es).count x = es.count (Event.deliver SIGINT) := by
  intro es
  induction es with
  | nil => intro pc _; cases pc <;> rfl
  | cons e es ih =>
    intro pc hes
    have hrest : ∀ y ∈ es, y = Event.step ∨ y = Event.deliver SIGINT :=
      fun y hy => hes y (List.mem_cons_of_mem _ hy)
    cases e with
    | step =>
      have hc : (Event.step :: es).count (Event.deliver SIGINT)
          = es.count (Event.deliver SIGINT) :=
        List.count_cons_of_ne (fun h => Event.noConfusion h) es
      rw [hc]
      cases pc with
      | line17 => exact ih _ hrest
      | line21 =>
        show (statusLine :: loopLines MainPc.line22 es).count x = _
        rw [List.count_cons_of_ne hx.symm]
        exact ih _ hrest
      | line22 => exact ih _ hrest
      | inPrintf pt => exact ih _ hrest
    | enter pt => exact absurd (hes _ (List.mem_cons_self _ _)) (by simp)
    | deliver s =>
      have hs : s = SIGINT := deliver_eq_of_mem hes
      subst hs
      have hl : loopLines pc (Event.deliver SIGINT :: es)
          = interruptMessage SIGINT ++ loopLines pc es := by
        cases pc <;> rfl
      rw [hl, List.count_append, h1, ih _ hrest, List.count_cons_self]
      omega

theorem filter_loopLines_messages : ∀ (es : List Event) (pc : MainPc),
    (∀ e ∈ es, e = Event.step ∨ e = Event.deliver SIGINT) →
    (loopLines pc es).filter (fun l => decide (l ≠ statusLine))
      = (List.replicate (es.count (Event.deliver SIGINT)) (interruptMessage SIGINT)).flatten := by
  intro es
  induction es with
  | nil => intro pc _; cases pc <;> rfl
  | cons e es ih =>
    intro pc hes
    have hrest : ∀ y ∈ es, y = Event.step ∨ y = Event.deliver SIGINT :=
      fun y hy => hes y (List.mem_cons_of_mem _ hy)
    cases e with
    | step =>
      have hc : (Event.step :: es).count (Event.deliver SIGINT)
          = es.count (Event.deliver SIGINT) :=
        List.count_cons_of_ne (fun h => Event.noConfusion h) es
      rw [hc]
      cases pc with
      | line17 => exact ih _ hrest
      | line21 =>
        show (statusLine :: loopLines MainPc.line22 es).filter _ = _
        rw [List.filter_cons_of_neg (by simp)]
        exact ih _ hrest
      | line22 => exact ih _ hrest
      | inPrintf pt => exact ih _ hrest
    | enter pt => exact absurd (hes _ (List.mem_cons_self _ _)) (by simp)
    | deliver s =>
      have hs : s = SIGINT := deliver_eq_of_mem hes
      subst hs
      have hl : loopLines pc (Event.deliver SIGINT :: es)
          = interruptMessage SIGINT ++ loopLines pc es := by
        cases pc <;> rfl
      have hm : (interruptMessage SIGINT).filter (fun l => decide (l ≠ statusLine))
          = interruptMessage SIGINT := by decide
      rw [hl, List.filter_append, hm, ih _ hrest, List.count_cons_self, List.replicate_succ,
        List.flatten_cons]

theorem filter_loopLines_status : ∀ (es : List Event) (pc : MainPc),
    pc = MainPc.line21 ∨ pc = MainPc.line22 →
    (loopLines pc es).filter (fun l => decide (l ∉ interruptMessage SIGINT))
      = List.replicate
          (if pc = MainPc.line21 then (es.count Event.step + 1) / 2 else es.count Event.step / 2)
          statusLine := by
  intro es
  induction es with
  | nil => intro pc _; cases pc <;> rfl
  | cons e es ih =>
    intro pc hpc
    cases e with
    | step =>
      rw [List.count_cons_self]
      rcases hpc with rfl | rfl
      · show (statusLine :: loopLines MainPc.line22 es).filter _ = _
        rw [List.filter_cons_of_pos (by decide), ih _ (Or.inr rfl)]
        simp only [if_true, if_neg (show MainPc.line22 ≠ MainPc.line21 from
          fun h => MainPc.noConfusion h)]
        rw [show (es.count Event.step + 1 + 1) / 2 = es.count Event.step / 2 + 1 by omega,
          List.replicate_succ]
      · show (loopLines MainPc.line21 es).filter _ = _
        rw [ih _ (Or.inl rfl)]
        simp
    | deliver s =>
      have hl : loopLines pc (Event.deliver s :: es)
          = interruptMessage SIGINT ++ loopLines pc es := by
        cases pc <;> rfl
      have hm : (interruptMessage SIGINT).filter (fun l => decide (l ∉ interruptMessage SIGINT))
          = [] := by decide
      have hc : (Event.deliver s :: es).count Event.step = es.count Event.step :=
        List.count_cons_of_ne (fun h => Event.noConfusion h) es
      rw [hl, List.filter_append, hm, ih _ hpc, hc, List.nil_append]
    | enter pt =>
      have hl : loopLines pc (Event.enter pt :: es) = loopLines pc es := by
        cases pc <;> rfl
      have hc : (Event.enter pt :: es).count Event.step = es.count Event.step :=
        List.count_cons_of_ne (fun h => Event.noConfusion h) es
      rw [hl, ih _ hpc, hc]

/-! ## Whole messages -/

theorem wholeMessages_append {msg a b : List String} (ha : WholeMessages msg a)
    (hb : WholeMessages msg b) : WholeMessages msg (a ++ b) := by
  induction ha with
  | nil => exact hb
  | status ls _ ih => exact WholeMessages.status _ ih
  | message ls _ ih =>
    rw [List.append_assoc]
    exact WholeMessages.message _ ih

theorem wholeMessages_status (msg : List String) : WholeMessages msg [statusLine] :=
  WholeMessages.status _ WholeMessages.nil

theorem wholeMessages_message (msg : List String) : WholeMessages msg msg := by
  have h := @WholeMessages.message msg [] WholeMessages.nil
  rwa [List.append_nil] at h

/-- How a text of whole messages begins. -/
theorem wholeMessages_head {msg ls : List String} (h : WholeMessages msg ls) :
    ls = [] ∨ ls.head? = some statusLine ∨ msg <+: ls := by
  cases h with
  | nil => exact Or.inl rfl
  | status ls _ => exact Or.inr (Or.inl rfl)
  | message ls _ => exact Or.inr (Or.inr (List.prefix_append _ _))

theorem outputInv_of_stdout (p q : Proc) (h : OutputInv p) (hs : q.stdout = p.stdout)
    (hd : q.disp = p.disp) (hq : ∀ pt : PrintfPoint, q.pc ≠ MainPc.inPrintf pt) :
    OutputInv q := by
  have hl : q.lines = p.lines := by unfold Proc.lines; rw [hs]
  refine ⟨by rw [hs]; exact h.1, by rw [hl]; exact h.2.1, ?_, hq⟩
  rw [hd]
  exact h.2.2.1

theorem deliver_trace (sig : Int) (p : Proc) :
    (deliver sig p).trace = p.trace
      ∨ ((∃ f, p.disp sig = Disposition.handler f)
          ∧ deliver sig p = ctrlC_signal_handler sig (staleFlush p)) := by
  unfold deliver
  split
  · exact Or.inl rfl
  · split
    · exact Or.inl rfl
    · split_ifs <;> exact Or.inl rfl
    · split
      · exact Or.inl rfl
      · rename_i f hf
        cases f
        exact Or.inr ⟨⟨_, hf⟩, rfl⟩
      · split <;> exact Or.inl rfl

theorem deliver_boundary (sig : Int) (p : Proc)
    (h : ∀ pt : PrintfPoint, p.pc ≠ MainPc.inPrintf pt) (pt : PrintfPoint) :
    (deliver sig p).pc ≠ MainPc.inPrintf pt := by
  rcases (deliver_frame sig p).2 with h2 | h2
  · rw [h2]; exact h pt
  · rw [h2]; exact fun e => MainPc.noConfusion e

theorem outputInv_handler (p : Proc) (h : OutputInv p) :
    OutputInv (ctrlC_signal_handler SIGINT p) := by
  have hs := split_handler SIGINT p h.1
  have hl : (ctrlC_signal_handler SIGINT p).lines = p.lines ++ interruptMessage SIGINT :=
    congrArg Prod.fst hs
  refine ⟨by rw [hs], ?_, h.2.2.1, h.2.2.2⟩
  rw [hl]
  exact wholeMessages_append h.2.1 (wholeMessages_message _)

theorem outputInv_exec (p : Proc) (e : Event) (h : OutputInv p)
    (hb : e.betweenStatements = true) : OutputInv (exec p e) := by
  cases e with
  | enter pt => exact absurd hb (by simp [Event.betweenStatements])
  | deliver sig =>
    rcases deliver_trace sig p with ht | ⟨⟨f, hf⟩, he⟩
    · exact outputInv_of_stdout p _ h (congrArg stdoutOf ht) (deliver_frame sig p).1
        (deliver_boundary sig p h.2.2.2)
    · have hs : sig = SIGINT := h.2.2.1 sig f hf
      subst hs
      show OutputInv (deliver SIGINT p)
      rw [he, staleFlush_of_boundary p h.2.2.2]
      exact outputInv_handler p h
  | step =>
    by_cases hr : p.status = Status.running
    · have he : exec p Event.step = main_step p := by simp [exec, hr]
      rw [he]
      cases hpc : p.pc with
      | inPrintf pt => exact absurd hpc (h.2.2.2 pt)
      | line17 =>
        have hv : validSignal SIGINT = true ∧ SIGINT ≠ SIGKILL ∧ SIGINT ≠ SIGSTOP := by decide
        have hm : main_step p = { p with
            disp := fun s => if s = SIGINT then
              Disposition.handler HandlerFn.ctrlC_signal_handler else p.disp s
            pc := MainPc.line21 } := by
          simp [main_step, hpc, signal, hv]
        rw [hm]
        have hs : ({ p with
            disp := fun s => if s = SIGINT then
              Disposition.handler HandlerFn.ctrlC_signal_handler else p.disp s
            pc := MainPc.line21 } : Proc).stdout = p.stdout := rfl
        refine ⟨by rw [hs]; exact h.1, ?_, ?_, fun pt e => MainPc.noConfusion e⟩
        · have hl : ({ p with
              disp := fun s => if s = SIGINT then
                Disposition.handler HandlerFn.ctrlC_signal_handler else p.disp s
              pc := MainPc.line21 } : Proc).lines = p.lines := rfl
          rw [hl]
          exact h.2.1
        · intro sig f hf
          by_cases hsig : sig = SIGINT
          · exact hsig
          · simp only [if_neg hsig] at hf
            exact h.2.2.1 sig f hf
      | line21 =>
        have hm : main_step p = { printf "Program running\n" p with pc := MainPc.line22 } := by
          simp [main_step, hpc]
        have e : "Program running\n" = statusLine ++ "\n" := by decide
        rw [e] at hm
        have hs : splitLines (main_step p).stdout = (p.lines ++ [statusLine], "") := by
          rw [hm]
          exact split_printf_line statusLine p (by decide) h.1
        have hl : (main_step p).lines = p.lines ++ [statusLine] := congrArg Prod.fst hs
        refine ⟨by rw [hs], ?_, ?_, ?_⟩
        · rw [hl]
          exact wholeMessages_append h.2.1 (wholeMessages_status _)
        · rw [hm]
          exact h.2.2.1
        · rw [hm]
          exact fun pt e => MainPc.noConfusion e
      | line22 =>
        have hm : main_step p = { sleep 1 p with pc := MainPc.line21 } := by
          simp [main_step, hpc]
        rw [hm]
        exact outputInv_of_stdout p _ h (stdout_sleep 1 p) rfl
          (fun pt e => MainPc.noConfusion e)
    · have he : exec p Event.step = p := by simp [exec, hr]
      rw [he]
      exact h

theorem outputInv_runFrom (es : List Event) : ∀ p : Proc, OutputInv p →
    (∀ e ∈ es, e.betweenStatements = true) → OutputInv (runFrom p es) := by
  induction es with
  | nil => intro p h _; exact h
  | cons e es ih =>
    intro p h hes
    rw [runFrom_cons]
    exact ih _ (outputInv_exec p e h (hes e (List.mem_cons_self _ _)))
      (fun x hx => hes x (List.mem_cons_of_mem _ hx))

theorem outputInv_entry (argc : Int) (argv : List String) : OutputInv (main_entry argc argv) :=
  ⟨rfl, WholeMessages.nil, fun _ _ h => Disposition.noConfusion h,
    fun _ h => MainPc.noConfusion h⟩

/-! ## Claims about interleavings -/

/-- C5, as stated, fails, in three ways, each with one SIGINT delivery (k = 1).
After the setup and a delivery at line 21, standard output has no line
`as sig:2 got re defined`: the line the handler wrote ends in a blank. A delivery that
comes before the setup is not reported at all: the process is terminated and no line
`Ctrl-C pressed` is ever written. A delivery that finds `main` inside its `printf`, with
the 15 characters `Program running` in the stream and the newline not yet, glues the first
line of the message to them: the output has the line `Program runningCtrl-C pressed` and
no line `Ctrl-C pressed`, while the other two lines of the message are there once. -/
theorem deliveries_without_whole_message :
    ([Event.deliver SIGINT].count (Event.deliver SIGINT) = 1
        ∧ (main 0 [] (Event.step :: [Event.deliver SIGINT])).lines.count
            "as sig:2 got re defined" = 0)
      ∧ ([Event.deliver SIGINT, Event.step, Event.step].count (Event.deliver SIGINT) = 1
        ∧ (main 0 [] [Event.deliver SIGINT, Event.step, Event.step]).lines.count
            "Ctrl-C pressed" = 0)
      ∧ ([Event.enter (PrintfPoint.copied 15), Event.deliver SIGINT, Event.step].count
            (Event.deliver SIGINT) = 1
        ∧ (main 0 [] (Event.step :: [Event.enter (PrintfPoint.copied 15),
            Event.deliver SIGINT, Event.step])).lines
          = ["Program runningCtrl-C pressed", "Program did'nt quit execution",
             "as sig:2 got re defined ", ""]
        ∧ (main 0 [] (Event.step :: [Event.enter (PrintfPoint.copied 15),
            Event.deliver SIGINT, Event.step])).lines.count "Ctrl-C pressed" = 0
        ∧ (main 0 [] (Event.step :: [Event.enter (PrintfPoint.copied 15),
            Event.deliver SIGINT, Event.step])).lines.count "Program did'nt quit execution"
          = 1) := by
  refine ⟨⟨by decide, by decide⟩, ⟨by decide, by decide⟩, by decide, by decide, by decide,
    by decide⟩

/-- C5, amended: for every sequence of loop steps and SIGINT deliveries after the setup,
every delivery arriving between two statements of `main` (before the `printf` of line 21
or during the `sleep` of line 22), with k the number of deliveries in it (in immediate
succession or not), standard output holds one interrupt message per delivery: the numbers
of lines `Ctrl-C pressed`, of lines `Program did'nt quit execution` and of lines
`as sig:2 got re defined ` (with the blank at the end) are each k, and the output without
its `Program running` lines is exactly k copies of the three-line message. -/
theorem one_message_per_delivery (argc : Int) (argv : List String) (es : List Event)
    (hes : ∀ e ∈ es, e = Event.step ∨ e = Event.deliver SIGINT) :
    (main argc argv (Event.step :: es)).lines.count "Ctrl-C pressed"
        = es.count (Event.deliver SIGINT)
      ∧ (main argc argv (Event.step :: es)).lines.count "Program did'nt quit execution"
        = es.count (Event.deliver SIGINT)
      ∧ (main argc argv (Event.step :: es)).lines.count "as sig:2 got re defined "
        = es.count (Event.deliver SIGINT)
      ∧ (main argc argv (Event.step :: es)).lines.filter
          (fun l => decide (l ≠ "Program running"))
        = (List.replicate (es.count (Event.deliver SIGINT))
            ["Ctrl-C pressed", "Program did'nt quit execution",
             "as sig:2 got re defined "]).flatten := by
  have hl : (main argc argv (Event.step :: es)).lines = loopLines MainPc.line21 es :=
    congrArg Prod.fst (lines_main argc argv es hes)
  rw [hl]
  refine ⟨count_loopLines _ (by decide) (by decide) es _ hes,
    count_loopLines _ (by decide) (by decide) es _ hes,
    count_loopLines _ (by decide) (by decide) es _ hes, ?_⟩
  exact filter_loopLines_messages es _ hes

theorem one_message_per_delivery_witness :
    (∀ e ∈ [Event.step, Event.deliver SIGINT, Event.deliver SIGINT, Event.step,
        Event.deliver SIGINT], e = Event.step ∨ e = Event.deliver SIGINT)
      ∧ (main 0 [] (Event.step :: [Event.step, Event.deliver SIGINT, Event.deliver SIGINT,
          Event.step, Event.deliver SIGINT])).lines.count "as sig:2 got re defined "
        = [Event.step, Event.deliver SIGINT, Event.deliver SIGINT, Event.step,
            Event.deliver SIGINT].count (Event.deliver SIGINT) :=
  ⟨by decide, (one_message_per_delivery 0 []
    [Event.step, Event.deliver SIGINT, Event.deliver SIGINT, Event.step, Event.deliver SIGINT]
    (by decide)).2.2.1⟩

/-- C9, as stated, fails: in the first iteration of the loop (one `printf`, one
`sleep`), a SIGINT delivery that finds `main` inside its `printf`, with the buffer written
to the terminal and the stream not yet reset, makes the status line appear twice: with the
lines of the handler removed, the output of this one iteration is two lines
`Program running`. A delivery after the 15 characters `Program running` leaves, with the
lines of the handler removed, a glued line and an empty one. -/
theorem interrupt_in_printf_repeats_status_line :
    ((main 0 [] [Event.step, Event.enter PrintfPoint.written, Event.deliver SIGINT,
        Event.step]).trace.count (Effect.sleep 1) = 1
      ∧ (main 0 [] [Event.step, Event.enter PrintfPoint.written, Event.deliver SIGINT,
        Event.step]).pc = MainPc.line21
      ∧ (main 0 [] [Event.step, Event.enter PrintfPoint.written, Event.deliver SIGINT,
        Event.step]).lines.filter
          (fun l => decide (l ∉ ["Ctrl-C pressed", "Program did'nt quit execution",
            "as sig:2 got re defined "]))
        = ["Program running", "Program running"]
      ∧ (main 0 [] [Event.step, Event.enter PrintfPoint.written, Event.deliver SIGINT,
        Event.step]).lines.filter
          (fun l => decide (l ∉ ["Ctrl-C pressed", "Program did'nt quit execution",
            "as sig:2 got re defined "]))
        ≠ List.replicate 1 "Program running")
      ∧ (main 0 [] [Event.step, Event.enter (PrintfPoint.copied 15), Event.deliver SIGINT,
        Event.step, Event.step]).lines.filter
          (fun l => decide (l ∉ ["Ctrl-C pressed", "Program did'nt quit execution",
            "as sig:2 got re defined "]))
        = ["Program runningCtrl-C pressed", ""] := by
  refine ⟨⟨by decide, by decide, by decide, by decide⟩, by decide⟩

/-- C9, amended: for every n and every sequence of loop steps and SIGINT deliveries after
the setup, every delivery arriving between two statements of `main` (before the `printf`
of line 21 or during the `sleep` of line 22), in which the loop executes 2 n statements
(its first n iterations), the output with the three lines of the handler removed is
exactly n lines `Program running`, which is the output of the first n iterations of the
run without any signal. -/
theorem interrupts_keep_loop_messages (argc : Int) (argv : List String) (n : Nat)
    (es : List Event) (hes : ∀ e ∈ es, e = Event.step ∨ e = Event.deliver SIGINT)
    (hn : es.count Event.step = 2 * n) :
    (main argc argv (Event.step :: es)).lines.filter
        (fun l => decide (l ∉ ["Ctrl-C pressed", "Program did'nt quit execution",
          "as sig:2 got re defined "]))
        = List.replicate n "Program running"
      ∧ (main argc argv (Event.step :: es)).lines.filter
        (fun l => decide (l ∉ ["Ctrl-C pressed", "Program did'nt quit execution",
          "as sig:2 got re defined "]))
        = (main argc argv (List.replicate (1 + 2 * n) Event.step)).lines := by
  have hl : (main argc argv (Event.step :: es)).lines = loopLines MainPc.line21 es :=
    congrArg Prod.fst (lines_main argc argv es hes)
  have h1 : (loopLines MainPc.line21 es).filter
      (fun l => decide (l ∉ interruptMessage SIGINT)) = List.replicate n statusLine := by
    rw [filter_loopLines_status es MainPc.line21 (Or.inl rfl), if_pos rfl, hn]
    congr 1
    omega
  have h2 : (main argc argv (List.replicate (1 + 2 * n) Event.step)).lines
      = List.replicate n statusLine := by
    have hs := lines_main argc argv (List.replicate (2 * n) Event.step)
      (by intro e he; exact Or.inl (List.eq_of_mem_replicate he))
    rw [← List.replicate_succ, show 2 * n + 1 = 1 + 2 * n by ring, loopLines_steps] at hs
    exact congrArg Prod.fst hs
  rw [hl, h2]
  exact ⟨h1, h1⟩

theorem interrupts_keep_loop_messages_witness :
    (∀ e ∈ [Event.deliver SIGINT, Event.step, Event.deliver SIGINT, Event.step, Event.step,
        Event.deliver SIGINT, Event.deliver SIGINT, Event.step],
        e = Event.step ∨ e = Event.deliver SIGINT)
      ∧ [Event.deliver SIGINT, Event.step, Event.deliver SIGINT, Event.step, Event.step,
        Event.deliver SIGINT, Event.deliver SIGINT, Event.step].count Event.step = 2 * 2
      ∧ (main 0 [] (Event.step :: [Event.deliver SIGINT, Event.step, Event.deliver SIGINT,
          Event.step, Event.step, Event.deliver SIGINT, Event.deliver SIGINT,
          Event.step])).lines.filter
          (fun l => decide (l ∉ ["Ctrl-C pressed", "Program did'nt quit execution",
            "as sig:2 got re defined "]))
        = List.replicate 2 "Program running" :=
  ⟨by decide, by decide, (interrupts_keep_loop_messages 0 [] 2
    [Event.deliver SIGINT, Event.step, Event.deliver SIGINT, Event.step, Event.step,
      Event.deliver SIGINT, Event.deliver SIGINT, Event.step] (by decide) (by decide)).1⟩

/-- C10, as stated, fails, in two ways. After the setup and one SIGINT delivery the lines
of standard output are not made of blocks `Program running` and `Ctrl-C pressed`,
`Program did'nt quit execution`, `as sig:2 got re defined`: the third line of the message
has a blank at its end. And when the delivery finds `main` inside its `printf`, after the
15 characters `Program running`, the output is not made of whole blocks even with that
blank: its first line is `Program runningCtrl-C pressed`. -/
theorem message_blocks_broken :
    ¬ WholeMessages ["Ctrl-C pressed", "Program did'nt quit execution", "as sig:2 got re defined"]
        (main 0 [] [Event.step, Event.deliver SIGINT]).lines
      ∧ ¬ WholeMessages
          ["Ctrl-C pressed", "Program did'nt quit execution", "as sig:2 got re defined "]
          (main 0 [] [Event.step, Event.enter (PrintfPoint.copied 15), Event.deliver SIGINT,
            Event.step]).lines := by
  constructor
  · intro h
    rcases wholeMessages_head h with h1 | h1 | h1
    · exact absurd h1 (by decide)
    · exact absurd h1 (by decide)
    · exact absurd h1 (by decide)
  · intro h
    rcases wholeMessages_head h with h1 | h1 | h1
    · exact absurd h1 (by decide)
    · exact absurd h1 (by decide)
    · exact absurd h1 (by decide)

/-- C10, amended: in every state of `main` reached by steps of the loop and deliveries of
any signals, every delivery arriving between two statements of `main` (before the `printf`
of line 21 or during the `sleep` of line 22, not inside the `printf`), standard output
ends at a line boundary and its lines are a sequence of blocks, each either one line
`Program running` or the three lines of one interrupt message, adjacent and in the order
`Ctrl-C pressed`, `Program did'nt quit execution`, `as sig:2 got re defined ` (the third
with the blank the handler prints at its end): no status line and no line of another
message stands inside a message. -/
theorem messages_are_whole (argc : Int) (argv : List String) (es : List Event)
    (hes : ∀ e ∈ es, e.betweenStatements = true) :
    (splitLines (main argc argv es).stdout).2 = ""
      ∧ WholeMessages
          ["Ctrl-C pressed", "Program did'nt quit execution", "as sig:2 got re defined "]
          (main argc argv es).lines := by
  have h := outputInv_runFrom es _ (outputInv_entry argc argv) hes
  exact ⟨h.1, h.2.1⟩

theorem messages_are_whole_witness :
    (∀ e ∈ [Event.step, Event.deliver SIGINT, Event.step, Event.deliver SIGINT,
        Event.deliver SIGINT, Event.step, Event.deliver 28, Event.step],
        e.betweenStatements = true)
      ∧ (splitLines (main 0 [] [Event.step, Event.deliver SIGINT, Event.step,
          Event.deliver SIGINT, Event.deliver SIGINT, Event.step, Event.deliver 28,
          Event.step]).stdout).2 = ""
      ∧ WholeMessages
          ["Ctrl-C pressed", "Program did'nt quit execution", "as sig:2 got re defined "]
          (main 0 [] [Event.step, Event.deliver SIGINT, Event.step, Event.deliver SIGINT,
            Event.deliver SIGINT, Event.step, Event.deliver 28, Event.step]).lines :=
  ⟨by decide, messages_are_whole 0 []
    [Event.step, Event.deliver SIGINT, Event.step, Event.deliver SIGINT, Event.deliver SIGINT,
      Event.step, Event.deliver 28, Event.step] (by decide)⟩

end SigDemo
